import Mathlib

/-!
# Verification of the hardcoded IK setup module

Shallow embedding of `src/inverse_kinematics/hardcoded/setups.rs` (robot
geometry tables, the per-robot `SetupIk` implementations, and the textual
configuration parser) together with the kinematic-chain operations the module
calls (`forward_kinematics`, `forward_kinematics_partial`,
`calculate_ik_error`, nalgebra's pseudo-inverse solve).  The latter are not
part of the given sources, so they are modelled from the specification
(`spec.md` sections 4 and 8); each such definition carries a doc comment
starting with "Modelled from the spec".

Machine floats (`f64`) are embedded as real numbers, so the floating-point
tolerances of the spec become exact statements over `ℝ`.
-/

namespace IkGeo

/-- A 3-vector (nalgebra `Vector3<f64>`), embedded over `ℝ`. -/
abbrev Vec3 := Fin 3 → ℝ

/-- A 3x3 matrix (nalgebra `Matrix3<f64>`), embedded over `ℝ`. -/
abbrev Mat3 := Matrix (Fin 3) (Fin 3) ℝ

/-- A 6-vector of joint angles (nalgebra `Vector6<f64>`). -/
abbrev Vec6 := Fin 6 → ℝ

/-- A 7-vector of joint angles (nalgebra `Vector7<f64>`). -/
abbrev Vec7 := Fin 7 → ℝ

/-- `Vector3::x()`. -/
def ex : Vec3 := ![1, 0, 0]

/-- `Vector3::y()`. -/
def ey : Vec3 := ![0, 1, 0]

/-- `Vector3::z()`. -/
def ez : Vec3 := ![0, 0, 1]

/-- The cross-product matrix `K h` with `K h * v = h × v`, the building block
of Rodrigues' rotation formula. -/
def crossMat (h : Vec3) : Mat3 :=
  !![0, -(h 2), h 1; h 2, 0, -(h 0); -(h 1), h 0, 0]

/-- Modelled from the spec: `Rot(axis, angle)`, "the standard axis-angle
rotation matrix (Rodrigues' formula) about a unit axis" (spec section 4.1);
the Rust implementation `rot` lives in the `subproblems` module, which is not
among the given sources. -/
noncomputable def rot (h : Vec3) (θ : ℝ) : Mat3 :=
  1 + Real.sin θ • crossMat h + (1 - Real.cos θ) • (crossMat h * crossMat h)

/-- The kinematic model `Kinematics<N, N_PLUS_1>`: the list `h` of joint axes
and the list `p` of link vectors in the home configuration.  The Rust type
carries the two lengths as independent const-generic parameters; here they are
the lengths of the two lists, so the invariant "number of links = number of
joints + 1" is a proposition about each constructed value. -/
structure Kinematics where
  h : List Vec3
  p : List Vec3

/-- Modelled from the spec: the loop body of `forwardKinematics` (spec section
4.1): starting from an accumulated rotation `acc`, for each joint `i` the
rotation becomes `acc * Rot(axis_i, q_i)` and the link vector following the
joint contributes rotated by it.  Returns the final rotation and the sum
`Σ R_i · p_i` over the consumed links. -/
noncomputable def fkAux (acc : Mat3) : List Vec3 → List Vec3 → List ℝ → Mat3 × Vec3
  | h :: hs, p :: ps, q :: qs =>
    let acc2 := acc * rot h q
    let rest := fkAux acc2 hs ps qs
    (rest.1, acc2.mulVec p + rest.2)
  | _, _, _ => (acc, 0)

/-- Modelled from the spec: `forwardKinematics(q)` (spec section 4.1): with
`R_0 = I` and `R_i = R_{i-1} * Rot(axis_i, q_i)`, returns the pose
`(R_n, p_0 + Σ_{i=1..n} R_i · p_i)`.  The Rust implementation
`Kinematics::forward_kinematics` lives in `auxiliary.rs`, which is not among
the given sources. -/
noncomputable def Kinematics.forward_kinematics (kin : Kinematics) (q : List ℝ) :
    Mat3 × Vec3 :=
  let r := fkAux 1 kin.h kin.p.tail q
  (r.1, kin.p.headD 0 + r.2)

/-- Modelled from the spec: `forwardKinematicsPartial(fixedAngle, k, R_in)`
(spec section 4.1): removes axis `k`, merges the link before joint `k` with
the link after it pre-rotated by `R_k = Rot(axis_k, fixedAngle)`, and returns
`R_out = R_in * R_k`.  The axes and links strictly after the elimination point
also move with joint `k`'s fixed rotation (the reason the spec gives for
pre-rotating the merged link), which is what the stated postcondition — the
reduced model composed with `R_out` reproduces the original pose — requires.
The Rust implementation lives in `auxiliary.rs`, not among the given
sources. -/
noncomputable def forwardKinematicsPartial (kin : Kinematics) (qk : ℝ) (k : ℕ)
    (rin : Mat3) : Kinematics × Mat3 :=
  let rk := rot (kin.h.getD k 0) qk
  let hs := kin.h.take k ++ (kin.h.drop (k + 1)).map rk.mulVec
  let ps := kin.p.take k ++
    (kin.p.getD k 0 + rk.mulVec (kin.p.getD (k + 1) 0)) ::
      (kin.p.drop (k + 2)).map rk.mulVec
  (⟨hs, ps⟩, rin * rk)

/-- The dot product of two 3-vectors. -/
def dot3 (a b : Vec3) : ℝ := a 0 * b 0 + a 1 * b 1 + a 2 * b 2

/-- The Gram determinant `det (Aᵀ * A)` of the 3x2 matrix `A = [a b]`; it is
zero exactly when `A` is rank-deficient. -/
def gramDet (a b : Vec3) : ℝ := dot3 a a * dot3 b b - dot3 a b * dot3 a b

/-- Modelled from the spec: nalgebra's `pseudo_inverse(1e-12)` of the 3x2
matrix `[a b]`, applied to `v` — the minimum-norm solve of spec section 4.1's
degeneracy repair.  Over `ℝ` the fixed 1e-12 singularity tolerance becomes an
exact rank test; for a full-column-rank matrix `A` the minimum-norm
pseudo-inverse is `(AᵀA)⁻¹Aᵀ`.  Returns `none` (the spec's fatal
`NumericalDegeneracy`, a panic at the `unwrap` in the source) when the matrix
is rank-deficient. -/
noncomputable def pinvSolve (a b v : Vec3) : Option (ℝ × ℝ) :=
  let d := gramDet a b
  if d = 0 then none
  else some ((dot3 b b * dot3 a v - dot3 a b * dot3 b v) / d,
             (dot3 a a * dot3 b v - dot3 a b * dot3 a v) / d)

/-- The Euclidean norm of a 3-vector (nalgebra `.norm()` on `Vector3`). -/
noncomputable def norm3 (v : Vec3) : ℝ := Real.sqrt (dot3 v v)

/-- The Frobenius norm of a 3x3 matrix (nalgebra `.norm()` on `Matrix3`). -/
noncomputable def frobNorm (m : Mat3) : ℝ := Real.sqrt (∑ i, ∑ j, m i j ^ 2)

/-- nalgebra `.normalize()`: the vector divided by its Euclidean norm. -/
noncomputable def normalize3 (v : Vec3) : Vec3 := (norm3 v)⁻¹ • v

/-! ## Rotation algebra

Facts about Rodrigues rotations used by the joint-elimination proofs: a
rotation fixes its own axis, and conjugating a Rodrigues rotation by a
rotation about `ez` rotates its axis. -/

theorem crossMat_mulVec_self (h : Vec3) : (crossMat h).mulVec h = 0 := by
  funext i
  fin_cases i <;>
    simp [crossMat, Matrix.mulVec, Matrix.dotProduct, Fin.sum_univ_three] <;> ring

/-- A Rodrigues rotation fixes its own axis (for any axis vector, unit or
not, since the cross-product matrix annihilates it). -/
theorem rot_mulVec_self (h : Vec3) (θ : ℝ) : (rot h θ).mulVec h = h := by
  have h2 : (crossMat h * crossMat h).mulVec h = 0 := by
    rw [← Matrix.mulVec_mulVec, crossMat_mulVec_self, Matrix.mulVec_zero]
  simp [rot, Matrix.add_mulVec, Matrix.smul_mulVec_assoc, crossMat_mulVec_self, h2]

theorem rot_mulVec_smul_self (h : Vec3) (θ x : ℝ) :
    (rot h θ).mulVec (x • h) = x • h := by
  rw [Matrix.mulVec_smul, rot_mulVec_self]

/-- At angle zero every Rodrigues rotation is the identity. -/
theorem rot_zero (h : Vec3) : rot h 0 = 1 := by
  simp [rot]

/-- The closed form of the rotation about `ez`. -/
noncomputable def rotZ (θ : ℝ) : Mat3 :=
  !![Real.cos θ, -Real.sin θ, 0; Real.sin θ, Real.cos θ, 0; 0, 0, 1]

theorem rot_ez (θ : ℝ) : rot ez θ = rotZ θ := by
  ext i j
  fin_cases i <;> fin_cases j <;>
    simp [rot, rotZ, ez, crossMat, Matrix.mul_apply, Fin.sum_univ_three,
      Matrix.one_apply, Matrix.vecHead, Matrix.vecTail]

theorem rotZ_transpose_mul (θ : ℝ) : (rotZ θ).transpose * rotZ θ = 1 := by
  have hsc := Real.sin_sq_add_cos_sq θ
  ext i j
  fin_cases i <;> fin_cases j <;>
    simp [rotZ, Matrix.mul_apply, Fin.sum_univ_three, Matrix.transpose_apply,
      Matrix.one_apply, Matrix.vecHead, Matrix.vecTail] <;>
    (first
      | ring1
      | linear_combination hsc)

theorem crossMat_rotZ_mulVec (θ : ℝ) (h : Vec3) :
    crossMat ((rotZ θ).mulVec h) = rotZ θ * crossMat h * (rotZ θ).transpose := by
  have hsc := Real.sin_sq_add_cos_sq θ
  ext i j
  fin_cases i <;> fin_cases j <;>
    simp [crossMat, rotZ, Matrix.mulVec, Matrix.dotProduct, Matrix.mul_apply,
      Fin.sum_univ_three, Matrix.transpose_apply, Matrix.vecHead,
      Matrix.vecTail] <;>
    (first
      | ring1
      | linear_combination h 2 * hsc
      | linear_combination (-(h 2)) * hsc)

/-- Conjugation: a Rodrigues rotation about a rotated axis is the original
rotation conjugated by the axis rotation, here for rotations about `ez`. -/
theorem rotZ_conj (θ q : ℝ) (h : Vec3) :
    rot ((rotZ θ).mulVec h) q * rotZ θ = rotZ θ * rot h q := by
  have ht : (rotZ θ).transpose * rotZ θ = 1 := rotZ_transpose_mul θ
  have cancel : ∀ m : Mat3, (rotZ θ).transpose * (rotZ θ * m) = m := fun m => by
    rw [← Matrix.mul_assoc, ht, Matrix.one_mul]
  rw [rot, rot, crossMat_rotZ_mulVec]
  simp only [Matrix.add_mul, Matrix.mul_add, Matrix.smul_mul, Matrix.mul_smul,
    Matrix.one_mul, Matrix.mul_one, Matrix.mul_assoc, ht, cancel]

/-- Unfolding equation of `fkAux` at a cons step. -/
theorem fkAux_cons (acc : Mat3) (h : Vec3) (hs : List Vec3) (p : Vec3)
    (ps : List Vec3) (q : ℝ) (qs : List ℝ) :
    fkAux acc (h :: hs) (p :: ps) (q :: qs) =
      ((fkAux (acc * rot h q) hs ps qs).1,
       (acc * rot h q).mulVec p + (fkAux (acc * rot h q) hs ps qs).2) := rfl

/-- Unfolding equation of `fkAux` when the axis list is exhausted. -/
theorem fkAux_nil (acc : Mat3) (ps : List Vec3) (qs : List ℝ) :
    fkAux acc [] ps qs = (acc, 0) := rfl

/-- Chain segments whose axes and links are all rotated by a matrix `Rc`
satisfying the Rodrigues conjugation law compute the same link-vector sum as
the unrotated segment started from the accumulator multiplied by `Rc`, and a
final rotation that differs from the unrotated one exactly by `Rc`. -/
theorem fkAux_map_rotated (Rc : Mat3)
    (hconj : ∀ (h : Vec3) (q : ℝ), rot (Rc.mulVec h) q * Rc = Rc * rot h q) :
    ∀ (hs ps : List Vec3) (qs : List ℝ) (acc : Mat3),
      (fkAux acc (hs.map Rc.mulVec) (ps.map Rc.mulVec) qs).1 * Rc =
        (fkAux (acc * Rc) hs ps qs).1 ∧
      (fkAux acc (hs.map Rc.mulVec) (ps.map Rc.mulVec) qs).2 =
        (fkAux (acc * Rc) hs ps qs).2 := by
  intro hs
  induction hs with
  | nil => intro ps qs acc; simp [fkAux]
  | cons h hs ih =>
    intro ps qs acc
    cases ps with
    | nil => simp [fkAux]
    | cons p ps =>
      cases qs with
      | nil => simp [fkAux]
      | cons q qs =>
        have hacc : acc * rot (Rc.mulVec h) q * Rc = acc * Rc * rot h q := by
          rw [Matrix.mul_assoc, hconj, ← Matrix.mul_assoc]
        obtain ⟨ih1, ih2⟩ := ih ps qs (acc * rot (Rc.mulVec h) q)
        rw [List.map_cons, List.map_cons, fkAux_cons, fkAux_cons]
        refine ⟨?_, ?_⟩
        · rw [ih1, hacc]
        · rw [ih2, hacc, Matrix.mulVec_mulVec, hacc]

/-! ## Robot geometry tables

Direct transcriptions of the `get_kin` constant tables of `setups.rs`. -/

namespace Irb6640

/-- `Irb6640::get_kin`. -/
noncomputable def get_kin : Kinematics where
  h := [ez, ey, ey, ex, ey, ex]
  p := [0, (0.32 : ℝ) • ex + (0.78 : ℝ) • ez, (1.075 : ℝ) • ez, (1.1425 : ℝ) • ex + (0.2 : ℝ) • ez, 0, 0,
        (0.2 : ℝ) • ex]

end Irb6640

namespace KukaR800FixedQ3

/-- `KukaR800FixedQ3::Q3`. -/
noncomputable def Q3 : ℝ := Real.pi / 6

/-- `KukaR800FixedQ3::get_kin`. -/
noncomputable def get_kin : Kinematics where
  h := [ez, ey, ez, -ey, ez, ey, ez]
  p := [((0.15 + 0.19 : ℝ)) • ez, 0, (0.21 : ℝ) • ez, (0.19 : ℝ) • ez, ((0.21 + 0.19 : ℝ)) • ez, 0, 0,
        ((0.081 + 0.045 : ℝ)) • ez]

/-- `KukaR800FixedQ3::get_kin_partial`: eliminate joint index 2 at `Q3` with
identity prior rotation. -/
noncomputable def getKinPartial : Kinematics × Mat3 :=
  forwardKinematicsPartial get_kin Q3 2 1

end KukaR800FixedQ3

namespace RrcFixedQ6

/-- `RrcFixedQ6::Q6`. -/
noncomputable def Q6 : ℝ := Real.pi / 6

/-- `RrcFixedQ6::get_kin`. -/
noncomputable def get_kin : Kinematics where
  h := [ex, ez, ex, ez, ex, ez, ex]
  p := [(0.0254 : ℝ) • (0 : Vec3),
        (0.0254 : ℝ) • ((20 : ℝ) • ex - (4 : ℝ) • ey),
        (0.0254 : ℝ) • ((4 : ℝ) • ey),
        (0.0254 : ℝ) • ((21.5 : ℝ) • ex + (3.375 : ℝ) • ey),
        (0.0254 : ℝ) • ((-3.375 : ℝ) • ey),
        (0.0254 : ℝ) • ((21.5 : ℝ) • ex + (3.325 : ℝ) • ey),
        (0.0254 : ℝ) • ((-3.325 : ℝ) • ey),
        (0.0254 : ℝ) • ((7 : ℝ) • ex)]

/-- The intermediate reduction of `RrcFixedQ6::get_kin_partial` before the
degeneracy repair: eliminate joint index 5 at `Q6` with identity prior
rotation. -/
noncomputable def kinPre : Kinematics × Mat3 :=
  forwardKinematicsPartial get_kin Q6 5 1

/-- `RrcFixedQ6::get_kin_partial`: the reduction `kinPre` followed by the
degeneracy repair, which solves coefficients `(a0, a1)` for the merged link
(column 5) against the two neighbouring axes (columns 4 and 5 of `h`) via the
pseudo-inverse, then zeroes column 5 of `p` and absorbs `a0 • h_4` into
column 4 and `a1 • h_5` into column 6.  `none` models the panic of the
`unwrap` on a failed pseudo-inverse. -/
noncomputable def getKinPartial : Option (Kinematics × Mat3) :=
  match pinvSolve (kinPre.1.h.getD 4 0) (kinPre.1.h.getD 5 0)
      (kinPre.1.p.getD 5 0) with
  | none => none
  | some (a0, a1) =>
    some (⟨kinPre.1.h,
           ((kinPre.1.p.set 4
               (kinPre.1.p.getD 4 0 + a0 • kinPre.1.h.getD 4 0)).set 5 0).set 6
             (kinPre.1.p.getD 6 0 + a1 • kinPre.1.h.getD 5 0)⟩,
          kinPre.2)

end RrcFixedQ6

namespace YumiFixedQ3

/-- `YumiFixedQ3::Q3`. -/
noncomputable def Q3 : ℝ := Real.pi / 6

/-- `YumiFixedQ3::get_kin`.  The `from_row_slice` calls fill the 3x8 and 3x7
matrices row-major; the columns are transcribed here, and each axis column is
normalized as in the source. -/
noncomputable def get_kin : Kinematics where
  h := [![0.8138, 0.3420, 0.4698], ![0.1048, 0.7088, -0.6976],
        ![0.8138, 0.3420, 0.4698], ![0.1048, 0.7088, -0.6976],
        ![0.5716, -0.6170, -0.5410], ![0.1048, 0.7088, -0.6976],
        ![0.5716, -0.6170, -0.5410]].map normalize3
  p := [![0.0536, 0.0725, 0.4149], ![0.0642, 0.0527, 0.0632],
        ![0.1578, 0.0406, 0.0650], ![0.0880, 0.0011, 0.0143],
        ![0.1270, -0.0877, -0.0700], ![0.0354, -0.0712, -0.0670],
        ![0.0385, -0.0087, -0.0030], ![0.0040, -0.0043, -0.0038]]

/-- `YumiFixedQ3::get_kin_partial`: eliminate joint index 2 at `Q3` with
identity prior rotation. -/
noncomputable def getKinPartial : Kinematics × Mat3 :=
  forwardKinematicsPartial get_kin Q3 2 1

end YumiFixedQ3

namespace Ur5

/-- `Ur5::get_kin`. -/
noncomputable def get_kin : Kinematics where
  h := [ez, ey, ey, ey, -ez, ey]
  p := [(0.089159 : ℝ) • ez, (0.1358 : ℝ) • ey, ((-0.1197 : ℝ)) • ey + (0.425 : ℝ) • ex, (0.3922 : ℝ) • ex,
        (0.093 : ℝ) • ey, ((-0.0946 : ℝ)) • ez, (0.0823 : ℝ) • ey]

end Ur5

namespace ThreeParallelBot

/-- `ThreeParallelBot::get_kin`. -/
noncomputable def get_kin : Kinematics where
  h := [ez, ex, ex, ex, ez, ex]
  p := [ez, ey, ey, ey, ey, ey + ex, ex]

end ThreeParallelBot

namespace TwoParallelBot

/-- `TwoParallelBot::get_kin` (with `es = normalize(ex + ez)`). -/
noncomputable def get_kin : Kinematics where
  h := [ez, ex, ex, ez, ex, normalize3 (ex + ez)]
  p := [ez, ey, ey, ey, ey, ey, ez]

end TwoParallelBot

namespace SphericalBot

/-- `SphericalBot::get_kin`. -/
noncomputable def get_kin : Kinematics where
  h := [ey, ez, ey, ex, ey, ex]
  p := [0, ez + ex, ez + ex, ez + ex, 0, 0, ex]

end SphericalBot

end IkGeo

namespace IkGeo

theorem frobNorm_zero : frobNorm (0 : Mat3) = 0 := by
  simp [frobNorm]

theorem norm3_zero : norm3 (0 : Vec3) = 0 := by
  simp [norm3, dot3]

/-- C1: for the reduced model produced by `forward_kinematics_partial` as in
`KukaR800FixedQ3::get_kin_partial` (joint index 2 eliminated at `pi/6`), for
every assignment of the remaining six joint angles, the reduced model's
forward kinematics composed with the returned rotation reproduces the pose of
the original 7-joint model with joint 2 fixed at `pi/6`, within 1e-9 on the
rotation (Frobenius norm) and the translation (Euclidean norm); the proof
establishes exact equality. -/
theorem kuka_partial_equivalence (q0 q1 q2 q3 q4 q5 : ℝ) :
    frobNorm ((KukaR800FixedQ3.getKinPartial.1.forward_kinematics
          [q0, q1, q2, q3, q4, q5]).1 * KukaR800FixedQ3.getKinPartial.2 -
        (KukaR800FixedQ3.get_kin.forward_kinematics
          [q0, q1, KukaR800FixedQ3.Q3, q2, q3, q4, q5]).1) ≤ 1e-9 ∧
    norm3 ((KukaR800FixedQ3.getKinPartial.1.forward_kinematics
          [q0, q1, q2, q3, q4, q5]).2 -
        (KukaR800FixedQ3.get_kin.forward_kinematics
          [q0, q1, KukaR800FixedQ3.Q3, q2, q3, q4, q5]).2) ≤ 1e-9 := by
  have hconj : ∀ (h : Vec3) (q : ℝ),
      rot ((rot ez KukaR800FixedQ3.Q3).mulVec h) q * rot ez KukaR800FixedQ3.Q3 =
        rot ez KukaR800FixedQ3.Q3 * rot h q := by
    intro h q
    rw [rot_ez]
    exact rotZ_conj _ q h
  obtain ⟨key1, key2⟩ := fkAux_map_rotated (rot ez KukaR800FixedQ3.Q3) hconj
    [-ey, ez, ey, ez]
    [((0.21 + 0.19 : ℝ)) • ez, 0, 0, ((0.081 + 0.045 : ℝ)) • ez]
    [q2, q3, q4, q5] (rot ez q0 * rot ey q1)
  simp only [List.map_cons, List.map_nil, fkAux_cons, fkAux_nil] at key1 key2
  have hR : (KukaR800FixedQ3.getKinPartial.1.forward_kinematics
        [q0, q1, q2, q3, q4, q5]).1 * KukaR800FixedQ3.getKinPartial.2 =
      (KukaR800FixedQ3.get_kin.forward_kinematics
        [q0, q1, KukaR800FixedQ3.Q3, q2, q3, q4, q5]).1 := by
    simp only [KukaR800FixedQ3.getKinPartial, forwardKinematicsPartial,
      KukaR800FixedQ3.get_kin, Kinematics.forward_kinematics,
      List.take_succ_cons, List.take_zero, List.drop_succ_cons, List.drop_zero,
      List.getD_cons_zero, List.getD_cons_succ, List.cons_append,
      List.nil_append, List.tail_cons, List.headD_cons, List.map_cons,
      List.map_nil, fkAux_cons, fkAux_nil, Matrix.one_mul]
    exact key1
  have ht : (KukaR800FixedQ3.getKinPartial.1.forward_kinematics
        [q0, q1, q2, q3, q4, q5]).2 =
      (KukaR800FixedQ3.get_kin.forward_kinematics
        [q0, q1, KukaR800FixedQ3.Q3, q2, q3, q4, q5]).2 := by
    simp only [KukaR800FixedQ3.getKinPartial, forwardKinematicsPartial,
      KukaR800FixedQ3.get_kin, Kinematics.forward_kinematics,
      List.take_succ_cons, List.take_zero, List.drop_succ_cons, List.drop_zero,
      List.getD_cons_zero, List.getD_cons_succ, List.cons_append,
      List.nil_append, List.tail_cons, List.headD_cons, List.map_cons,
      List.map_nil, fkAux_cons, fkAux_nil, Matrix.one_mul]
    rw [key2]
    simp only [Matrix.mulVec_add, Matrix.mulVec_mulVec, add_assoc]
  refine ⟨?_, ?_⟩
  · rw [hR, sub_self, frobNorm_zero]
    norm_num
  · rw [ht, sub_self, norm3_zero]
    norm_num

end IkGeo

namespace IkGeo

/-! ## The RRC degeneracy repair -/

/-- Exactness of the pseudo-inverse solve on a consistent system: when the
3x2 matrix `[a b]` has full column rank and the right-hand side already lies
in the column span, the minimum-norm solution is the exact combination. -/
theorem pinv_exact (a b : Vec3) (x y : ℝ) (hd : gramDet a b ≠ 0) :
    pinvSolve a b (x • a + y • b) = some (x, y) := by
  have hv1 : dot3 a (x • a + y • b) = x * dot3 a a + y * dot3 a b := by
    simp only [dot3, Pi.add_apply, Pi.smul_apply, smul_eq_mul]
    ring
  have hv2 : dot3 b (x • a + y • b) = x * dot3 a b + y * dot3 b b := by
    simp only [dot3, Pi.add_apply, Pi.smul_apply, smul_eq_mul]
    ring
  unfold pinvSolve
  rw [if_neg hd, hv1, hv2]
  have e1 : dot3 b b * (x * dot3 a a + y * dot3 a b) -
      dot3 a b * (x * dot3 a b + y * dot3 b b) = x * gramDet a b := by
    unfold gramDet
    ring
  have e2 : dot3 a a * (x * dot3 a b + y * dot3 b b) -
      dot3 a b * (x * dot3 a a + y * dot3 a b) = y * gramDet a b := by
    unfold gramDet
    ring
  rw [e1, e2, mul_div_assoc, div_self hd, mul_one, mul_div_assoc, div_self hd,
    mul_one]

/-- The coefficient solved by the repair for the axis at column 4. -/
noncomputable def rrcX0 : ℝ :=
  (0.0254 : ℝ) * 28.15 - (0.0254 : ℝ) * 6.65 * Real.cos (Real.pi / 6)

/-- The coefficient solved by the repair for the axis at column 5. -/
noncomputable def rrcY0 : ℝ :=
  (0.0254 : ℝ) * 6.65 - (0.0254 : ℝ) * 6.65 * Real.cos (Real.pi / 6)

/-- Evaluation of the pre-repair reduced RRC model. -/
theorem rrc_pre_eval : RrcFixedQ6.kinPre.1 =
    (⟨[ex, ez, ex, ez, ex, (rot ez RrcFixedQ6.Q6).mulVec ex],
      [(0.0254 : ℝ) • (0 : Vec3),
       (0.0254 : ℝ) • ((20 : ℝ) • ex - (4 : ℝ) • ey),
       (0.0254 : ℝ) • ((4 : ℝ) • ey),
       (0.0254 : ℝ) • ((21.5 : ℝ) • ex + (3.375 : ℝ) • ey),
       (0.0254 : ℝ) • ((-3.375 : ℝ) • ey),
       (0.0254 : ℝ) • ((21.5 : ℝ) • ex + (3.325 : ℝ) • ey) +
         (rot ez RrcFixedQ6.Q6).mulVec ((0.0254 : ℝ) • ((-3.325 : ℝ) • ey)),
       (rot ez RrcFixedQ6.Q6).mulVec ((0.0254 : ℝ) • ((7 : ℝ) • ex))]⟩ :
      Kinematics) := by
  simp only [RrcFixedQ6.kinPre, forwardKinematicsPartial, RrcFixedQ6.get_kin,
    List.take_succ_cons, List.take_zero, List.drop_succ_cons, List.drop_zero,
    List.getD_cons_zero, List.getD_cons_succ, List.cons_append,
    List.nil_append, List.map_cons, List.map_nil]

/-- The rotated sixth axis of the reduced RRC model in closed form. -/
theorem rrc_axis_eval : (rot ez RrcFixedQ6.Q6).mulVec ex =
    ![Real.cos (Real.pi / 6), Real.sin (Real.pi / 6), 0] := by
  rw [show RrcFixedQ6.Q6 = Real.pi / 6 from rfl, rot_ez]
  funext i
  fin_cases i <;>
    simp [rotZ, ex, Matrix.mulVec, Matrix.dotProduct, Fin.sum_univ_three,
      Matrix.vecHead, Matrix.vecTail]

/-- The Gram determinant of the two axes used by the RRC repair is `1/4`,
far from the singular case. -/
theorem rrc_gram : gramDet (RrcFixedQ6.kinPre.1.h.getD 4 0)
    (RrcFixedQ6.kinPre.1.h.getD 5 0) = 1 / 4 := by
  rw [rrc_pre_eval]
  simp only [List.getD_cons_zero, List.getD_cons_succ]
  rw [rrc_axis_eval]
  have h3 : Real.sqrt 3 * Real.sqrt 3 = 3 := Real.mul_self_sqrt (by norm_num)
  simp [gramDet, dot3, ex, Real.cos_pi_div_six, Real.sin_pi_div_six,
    Matrix.vecHead, Matrix.vecTail]
  ring_nf

/-- The merged link of the reduced RRC model decomposes exactly over the two
neighbouring axes with the coefficients `rrcX0`, `rrcY0`. -/
theorem rrc_decomp :
    (0.0254 : ℝ) • ((21.5 : ℝ) • ex + (3.325 : ℝ) • ey) +
        (rot ez RrcFixedQ6.Q6).mulVec ((0.0254 : ℝ) • ((-3.325 : ℝ) • ey)) =
      rrcX0 • ex + rrcY0 • ((rot ez RrcFixedQ6.Q6).mulVec ex) := by
  rw [rrc_axis_eval, show RrcFixedQ6.Q6 = Real.pi / 6 from rfl, rot_ez]
  have h3 : Real.sqrt 3 * Real.sqrt 3 = 3 := Real.mul_self_sqrt (by norm_num)
  funext i
  fin_cases i <;>
    simp [rotZ, rrcX0, rrcY0, ex, ey, Matrix.mulVec, Matrix.dotProduct,
      Fin.sum_univ_three, Matrix.vecHead, Matrix.vecTail,
      Real.cos_pi_div_six, Real.sin_pi_div_six] <;>
    (first
      | ring1
      | nlinarith [h3])

end IkGeo

namespace IkGeo

/-- The repaired reduced RRC model, written out. -/
noncomputable def rrcRepaired : Kinematics where
  h := [ex, ez, ex, ez, ex, (rot ez RrcFixedQ6.Q6).mulVec ex]
  p := [(0.0254 : ℝ) • (0 : Vec3),
        (0.0254 : ℝ) • ((20 : ℝ) • ex - (4 : ℝ) • ey),
        (0.0254 : ℝ) • ((4 : ℝ) • ey),
        (0.0254 : ℝ) • ((21.5 : ℝ) • ex + (3.375 : ℝ) • ey),
        (0.0254 : ℝ) • ((-3.375 : ℝ) • ey) + rrcX0 • ex,
        0,
        (rot ez RrcFixedQ6.Q6).mulVec ((0.0254 : ℝ) • ((7 : ℝ) • ex)) +
          rrcY0 • ((rot ez RrcFixedQ6.Q6).mulVec ex)]

/-- The repair's pseudo-inverse solve on the shipped RRC geometry succeeds
with the exact coefficients. -/
theorem rrc_solve : pinvSolve (RrcFixedQ6.kinPre.1.h.getD 4 0)
    (RrcFixedQ6.kinPre.1.h.getD 5 0) (RrcFixedQ6.kinPre.1.p.getD 5 0) =
      some (rrcX0, rrcY0) := by
  have hd : gramDet (RrcFixedQ6.kinPre.1.h.getD 4 0)
      (RrcFixedQ6.kinPre.1.h.getD 5 0) ≠ 0 := by
    rw [rrc_gram]
    norm_num
  have hv : RrcFixedQ6.kinPre.1.p.getD 5 0 =
      rrcX0 • RrcFixedQ6.kinPre.1.h.getD 4 0 +
        rrcY0 • RrcFixedQ6.kinPre.1.h.getD 5 0 := by
    rw [rrc_pre_eval]
    simp only [List.getD_cons_zero, List.getD_cons_succ]
    exact rrc_decomp
  rw [hv, pinv_exact _ _ _ _ hd]

/-- The full RRC reduction, repair included, succeeds and produces
`rrcRepaired` together with the reduction's output rotation. -/
theorem rrc_getKinPartial_eq :
    RrcFixedQ6.getKinPartial = some (rrcRepaired, RrcFixedQ6.kinPre.2) := by
  unfold RrcFixedQ6.getKinPartial
  rw [rrc_solve, rrc_pre_eval]
  simp only [rrcRepaired, List.getD_cons_zero, List.getD_cons_succ,
    List.set_cons_zero, List.set_cons_succ]

end IkGeo

namespace IkGeo

/-- The repair does not change the forward kinematics: the repaired and the
pre-repair reduced RRC models agree exactly at every joint assignment. -/
theorem rrc_repair_fk (q0 q1 q2 q3 q4 q5 : ℝ) :
    rrcRepaired.forward_kinematics [q0, q1, q2, q3, q4, q5] =
      RrcFixedQ6.kinPre.1.forward_kinematics [q0, q1, q2, q3, q4, q5] := by
  rw [rrc_pre_eval]
  simp only [rrcRepaired, Kinematics.forward_kinematics, List.tail_cons,
    List.headD_cons, fkAux_cons, fkAux_nil, Matrix.one_mul]
  rw [rrc_decomp]
  refine Prod.ext rfl ?_
  simp only [Matrix.mulVec_add, Matrix.mulVec_zero, ← Matrix.mulVec_mulVec,
    rot_mulVec_smul_self]
  abel

end IkGeo

namespace IkGeo

/-- C2: in `RrcFixedQ6::get_kin_partial` the repair solves the coefficient
pair via the minimum-norm pseudo-inverse of the 3x2 matrix of the two
relevant joint axes; afterwards the middle link (column 5) of the repaired
model is exactly the zero vector, its contribution having been absorbed into
the adjacent link columns 4 and 6, and the repaired model's forward
kinematics matches the pre-repair reduced model at every joint assignment
within 1e-9 (the proof gives exact equality): the repair changes
representation, not the physical transform. -/
theorem rrc_repair_correct :
    ∃ kp r6t, RrcFixedQ6.getKinPartial = some (kp, r6t) ∧
      pinvSolve (RrcFixedQ6.kinPre.1.h.getD 4 0)
        (RrcFixedQ6.kinPre.1.h.getD 5 0) (RrcFixedQ6.kinPre.1.p.getD 5 0) =
          some (rrcX0, rrcY0) ∧
      kp.p.getD 5 0 = 0 ∧
      kp.h = RrcFixedQ6.kinPre.1.h ∧
      kp.p.getD 4 0 = RrcFixedQ6.kinPre.1.p.getD 4 0 +
        rrcX0 • RrcFixedQ6.kinPre.1.h.getD 4 0 ∧
      kp.p.getD 6 0 = RrcFixedQ6.kinPre.1.p.getD 6 0 +
        rrcY0 • RrcFixedQ6.kinPre.1.h.getD 5 0 ∧
      ∀ q0 q1 q2 q3 q4 q5 : ℝ,
        frobNorm ((kp.forward_kinematics [q0, q1, q2, q3, q4, q5]).1 -
            (RrcFixedQ6.kinPre.1.forward_kinematics
              [q0, q1, q2, q3, q4, q5]).1) ≤ 1e-9 ∧
        norm3 ((kp.forward_kinematics [q0, q1, q2, q3, q4, q5]).2 -
            (RrcFixedQ6.kinPre.1.forward_kinematics
              [q0, q1, q2, q3, q4, q5]).2) ≤ 1e-9 := by
  refine ⟨rrcRepaired, RrcFixedQ6.kinPre.2, rrc_getKinPartial_eq, rrc_solve,
    ?_, ?_, ?_, ?_, ?_⟩
  · simp [rrcRepaired, List.getD_cons_zero, List.getD_cons_succ]
  · rw [rrc_pre_eval]
    rfl
  · rw [rrc_pre_eval]
    simp [rrcRepaired, List.getD_cons_zero, List.getD_cons_succ]
  · rw [rrc_pre_eval]
    simp [rrcRepaired, List.getD_cons_zero, List.getD_cons_succ]
  · intro q0 q1 q2 q3 q4 q5
    rw [rrc_repair_fk q0 q1 q2 q3 q4 q5]
    constructor
    · rw [sub_self, frobNorm_zero]
      norm_num
    · rw [sub_self, norm3_zero]
      norm_num

/-- C4: the model-construction-time pseudo-inverse solve fails (with the
fatal `NumericalDegeneracy`, modelled as `none` — never a silently
approximated result) whenever the 3x2 axis matrix is rank-deficient; and for
the shipped RRC geometry the Gram determinant of the two axes is `1/4`, far
from singular, so the construction succeeds. -/
theorem rrc_pinv_safety :
    (∀ a b v : Vec3, gramDet a b = 0 → pinvSolve a b v = none) ∧
    gramDet (RrcFixedQ6.kinPre.1.h.getD 4 0)
      (RrcFixedQ6.kinPre.1.h.getD 5 0) = 1 / 4 ∧
    ∃ kpr, RrcFixedQ6.getKinPartial = some kpr := by
  refine ⟨fun a b v hd => ?_, rrc_gram,
    ⟨(rrcRepaired, RrcFixedQ6.kinPre.2), rrc_getKinPartial_eq⟩⟩
  unfold pinvSolve
  rw [if_pos hd]

/-- Witness for C4 at a concrete input: the zero axis pair is rank-deficient
and the solve reports the degeneracy. -/
theorem rrc_pinv_safety_witness : pinvSolve 0 0 0 = none :=
  rrc_pinv_safety.1 0 0 0 (by simp [gramDet, dot3])

end IkGeo

namespace IkGeo

/-- C6 counterexample: the axes the claim attributes to the hardcoded UR5
model, `(z, y, y, x, y, x)`, are not the axes of `Ur5::get_kin` (whose fourth
axis is `y`, not `x`). -/
theorem ur5_axes_counterexample : Ur5.get_kin.h ≠ [ez, ey, ey, ex, ey, ex] := by
  intro hcontra
  have h2 := congrArg (fun l : List Vec3 => l.getD 3 0 0) hcontra
  simp [Ur5.get_kin, List.getD_cons_zero, List.getD_cons_succ, ex, ey] at h2

/-- C6 (amended): the hardcoded UR5 model has axes `(z, y, y, y, -z, y)` and
the home-link vectors the claim lists, and its forward kinematics at the zero
configuration is the identity rotation with translation exactly
`(0.8172, 0.1914, -0.005441)`, the componentwise sum of all link vectors. -/
theorem ur5_fk_at_zero :
    Ur5.get_kin.h = [ez, ey, ey, ey, -ez, ey] ∧
    Ur5.get_kin.p = [(0.089159 : ℝ) • ez, (0.1358 : ℝ) • ey,
      ((-0.1197 : ℝ)) • ey + (0.425 : ℝ) • ex, (0.3922 : ℝ) • ex,
      (0.093 : ℝ) • ey, ((-0.0946 : ℝ)) • ez, (0.0823 : ℝ) • ey] ∧
    Ur5.get_kin.forward_kinematics [0, 0, 0, 0, 0, 0] =
      (1, ![0.8172, 0.1914, -0.005441]) := by
  refine ⟨rfl, rfl, ?_⟩
  simp only [Ur5.get_kin, Kinematics.forward_kinematics, List.tail_cons,
    List.headD_cons, fkAux_cons, fkAux_nil, rot_zero, Matrix.one_mul,
    Matrix.mul_one, Matrix.one_mulVec]
  refine Prod.ext rfl ?_
  funext i
  fin_cases i <;>
    simp [ex, ey, ez, Matrix.vecHead, Matrix.vecTail] <;> norm_num

/-- C9: every kinematic model constructed in the module satisfies
"number of link vectors = number of joint axes + 1": the eight `get_kin`
tables (6-joint models have 7 links, 7-joint models 8 links), and every
reduced model returned by a `get_kin_partial` drops to 6 joints with 7
links. -/
theorem links_joints_invariant :
    Irb6640.get_kin.p.length = Irb6640.get_kin.h.length + 1 ∧
    KukaR800FixedQ3.get_kin.p.length = KukaR800FixedQ3.get_kin.h.length + 1 ∧
    RrcFixedQ6.get_kin.p.length = RrcFixedQ6.get_kin.h.length + 1 ∧
    YumiFixedQ3.get_kin.p.length = YumiFixedQ3.get_kin.h.length + 1 ∧
    Ur5.get_kin.p.length = Ur5.get_kin.h.length + 1 ∧
    ThreeParallelBot.get_kin.p.length = ThreeParallelBot.get_kin.h.length + 1 ∧
    TwoParallelBot.get_kin.p.length = TwoParallelBot.get_kin.h.length + 1 ∧
    SphericalBot.get_kin.p.length = SphericalBot.get_kin.h.length + 1 ∧
    (KukaR800FixedQ3.getKinPartial.1.h.length = 6 ∧
      KukaR800FixedQ3.getKinPartial.1.p.length = 7) ∧
    (YumiFixedQ3.getKinPartial.1.h.length = 6 ∧
      YumiFixedQ3.getKinPartial.1.p.length = 7) ∧
    ∃ kp r6t, RrcFixedQ6.getKinPartial = some (kp, r6t) ∧
      kp.h.length = 6 ∧ kp.p.length = 7 := by
  refine ⟨rfl, rfl, rfl, rfl, rfl, rfl, rfl, rfl, ⟨rfl, rfl⟩, ⟨rfl, rfl⟩,
    rrcRepaired, RrcFixedQ6.kinPre.2, rrc_getKinPartial_eq, rfl, rfl⟩

end IkGeo

namespace IkGeo

/-! ## Configuration parsing and the per-robot setup state -/

/-- Decimal digits to a natural number (most significant first). -/
def decToNat (cs : List Char) : ℕ :=
  cs.foldl (fun n c => 10 * n + (c.toNat - 48)) 0

/-- Every character is a decimal digit. -/
def allDigits (cs : List Char) : Bool := cs.all fun c => c.isDigit

/-- Unsigned decimal literal: digits with an optional fractional part, at
least one digit present. -/
def parseUnsigned (cs : List Char) : Option ℚ :=
  let intPart := cs.takeWhile fun c => c.isDigit
  let rest := cs.dropWhile fun c => c.isDigit
  match rest with
  | [] => if intPart.isEmpty then none else some (decToNat intPart)
  | '.' :: frac =>
    if (intPart.isEmpty && frac.isEmpty) || !allDigits frac then none
    else some ((decToNat intPart : ℚ) + (decToNat frac : ℚ) / 10 ^ frac.length)
  | _ => none

/-- Modelled from the spec: the external `str::parse::<f64>` applied to each
token of the configuration text — parsing of a real-number literal (optional
sign, decimal digits, optional fractional part), `none` when the token is not
parseable as a real number. -/
def parseReal : List Char → Option ℚ
  | '-' :: rest => (parseUnsigned rest).map fun q => -q
  | '+' :: rest => parseUnsigned rest
  | cs => parseUnsigned cs

/-- Rust's `str::split(',')` on the underlying character list: the comma
separates tokens, an empty input yields one empty token. -/
def splitComma : List Char → List (List Char)
  | [] => [[]]
  | c :: rest =>
    let r := splitComma rest
    if c = ',' then [] :: r
    else (c :: r.headD []) :: r.tail

/-- Option-valued traversal of a list: `some` of the mapped list when every
element maps to `some`, otherwise `none`.  Models the source's
`.map(|s| s.parse().unwrap()).collect()` pipeline, where `none` stands for
the panic of the `unwrap` on the first unparseable token. -/
def mapOption {α β : Type} (f : α → Option β) : List α → Option (List β)
  | [] => some []
  | a :: l =>
    match f a, mapOption f l with
    | some b, some bs => some (b :: bs)
    | _, _ => none

/-- `hardcoded_setup_from_string`: split the raw text on commas, parse every
token as a real number (a failed parse panics at the source's `unwrap` —
modelled by `none`), then read the first nine values row-major into the
rotation matrix and the next three into the translation (fewer than twelve
values makes the source's indexing panic — modelled by `none`).  Values past
the twelfth are ignored. -/
noncomputable def hardcoded_setup_from_string (raw : String) :
    Option (Mat3 × Vec3) :=
  match mapOption parseReal (splitComma raw.data) with
  | none => none
  | some data =>
    if 12 ≤ data.length then
      some (!![((data.getD 0 0 : ℚ) : ℝ), ((data.getD 1 0 : ℚ) : ℝ),
                 ((data.getD 2 0 : ℚ) : ℝ);
               ((data.getD 3 0 : ℚ) : ℝ), ((data.getD 4 0 : ℚ) : ℝ),
                 ((data.getD 5 0 : ℚ) : ℝ);
               ((data.getD 6 0 : ℚ) : ℝ), ((data.getD 7 0 : ℚ) : ℝ),
                 ((data.getD 8 0 : ℚ) : ℝ)],
            ![((data.getD 9 0 : ℚ) : ℝ), ((data.getD 10 0 : ℚ) : ℝ),
              ((data.getD 11 0 : ℚ) : ℝ)])
    else none

/-- The state of every generated robot setup struct (macro `define_struct`):
the kinematic model, the target pose `r`/`t`, and the candidate solutions `q`
with their least-squares flags `is_ls`. -/
structure SetupState where
  kin : Kinematics
  r : Mat3
  t : Vec3
  q : List Vec6
  is_ls : List Bool

/-- `setup_from_str` as generated by the `impl_setup_ik` macro — textually
identical for all eight robot types: delegates to
`hardcoded_setup_from_string`, writing only the target pose fields; `none`
models the parse panic propagating. -/
noncomputable def setup_from_str (s : SetupState) (raw : String) :
    Option SetupState :=
  match hardcoded_setup_from_string raw with
  | none => none
  | some (r, t) => some { s with r := r, t := t }

/-- `solution_count` (macro `impl_setup_ik`): `is_ls.len()`. -/
def solution_count (s : SetupState) : ℕ := s.is_ls.length

/-- `ls_count` (macro `impl_setup_ik`): the number of `true` flags. -/
def ls_count (s : SetupState) : ℕ := (s.is_ls.filter id).length

/-- Rust's `iter().map(...).reduce(f64::min)`: a left fold of `min`, `none`
for the empty list.  The source turns `none` into the `NAN` "no solution"
sentinel via `unwrap_or(NAN)`; over `ℝ` the sentinel stays modelled as
`none`. -/
def reduceMin : List ℝ → Option ℝ
  | [] => none
  | x :: xs => some (xs.foldl min x)

/-- Modelled from the spec: `calculate_ik_error` (spec section 4.2 step 5):
the Frobenius norm of the rotation difference plus the Euclidean norm of the
translation difference at the candidate's joint vector.  The Rust
implementation lives outside the given sources. -/
noncomputable def calculate_ik_error (kin : Kinematics) (r : Mat3) (t : Vec3)
    (q : Vec6) : ℝ :=
  frobNorm ((kin.forward_kinematics [q 0, q 1, q 2, q 3, q 4, q 5]).1 - r) +
    norm3 ((kin.forward_kinematics [q 0, q 1, q 2, q 3, q 4, q 5]).2 - t)

end IkGeo

namespace IkGeo

/-! ## Per-robot `SetupIk`/`SetupStatic` implementations -/

/-- `Irb6640::new` (macro `impl_setup_static`): the kinematic table with a
zero pose and empty solution lists. -/
noncomputable def Irb6640.new : SetupState := ⟨Irb6640.get_kin, 0, 0, [], []⟩

/-- `Irb6640::error`: minimum `calculate_ik_error` over the stored
candidates; `none` models the `NAN` sentinel of `unwrap_or(NAN)`. -/
noncomputable def Irb6640.error (s : SetupState) : Option ℝ :=
  reduceMin (s.q.map fun q => calculate_ik_error s.kin s.r s.t q)

/-- `KukaR800FixedQ3::new`. -/
noncomputable def KukaR800FixedQ3.new : SetupState :=
  ⟨KukaR800FixedQ3.get_kin, 0, 0, [], []⟩

/-- `KukaR800FixedQ3::error`: each candidate is extended with `Q3` inserted
at joint index 2 before re-evaluating the forward kinematics. -/
noncomputable def KukaR800FixedQ3.error (s : SetupState) : Option ℝ :=
  reduceMin (s.q.map fun q =>
    frobNorm ((s.kin.forward_kinematics
        [q 0, q 1, KukaR800FixedQ3.Q3, q 2, q 3, q 4, q 5]).1 - s.r) +
      norm3 ((s.kin.forward_kinematics
        [q 0, q 1, KukaR800FixedQ3.Q3, q 2, q 3, q 4, q 5]).2 - s.t))

/-- `KukaR800FixedQ3::setup`: the sampled configuration (the random draws
are the explicit argument `rand`, the random source being external) has its
entry 2 overwritten with `Q3` before the target pose is evaluated. -/
noncomputable def KukaR800FixedQ3.setup (s : SetupState) (rand : Vec7) :
    SetupState :=
  let q := Function.update rand 2 KukaR800FixedQ3.Q3
  { s with
    r := (s.kin.forward_kinematics [q 0, q 1, q 2, q 3, q 4, q 5, q 6]).1,
    t := (s.kin.forward_kinematics [q 0, q 1, q 2, q 3, q 4, q 5, q 6]).2 }

/-- `RrcFixedQ6::new`. -/
noncomputable def RrcFixedQ6.new : SetupState :=
  ⟨RrcFixedQ6.get_kin, 0, 0, [], []⟩

/-- `RrcFixedQ6::error`: `Q6` is inserted at joint index 5. -/
noncomputable def RrcFixedQ6.error (s : SetupState) : Option ℝ :=
  reduceMin (s.q.map fun q =>
    frobNorm ((s.kin.forward_kinematics
        [q 0, q 1, q 2, q 3, q 4, RrcFixedQ6.Q6, q 5]).1 - s.r) +
      norm3 ((s.kin.forward_kinematics
        [q 0, q 1, q 2, q 3, q 4, RrcFixedQ6.Q6, q 5]).2 - s.t))

/-- `RrcFixedQ6::setup`: entry 5 of the sampled configuration is overwritten
with `Q6`. -/
noncomputable def RrcFixedQ6.setup (s : SetupState) (rand : Vec7) :
    SetupState :=
  let q := Function.update rand 5 RrcFixedQ6.Q6
  { s with
    r := (s.kin.forward_kinematics [q 0, q 1, q 2, q 3, q 4, q 5, q 6]).1,
    t := (s.kin.forward_kinematics [q 0, q 1, q 2, q 3, q 4, q 5, q 6]).2 }

/-- `YumiFixedQ3::new`. -/
noncomputable def YumiFixedQ3.new : SetupState :=
  ⟨YumiFixedQ3.get_kin, 0, 0, [], []⟩

/-- `YumiFixedQ3::error`: `Q3` is inserted at joint index 2. -/
noncomputable def YumiFixedQ3.error (s : SetupState) : Option ℝ :=
  reduceMin (s.q.map fun q =>
    frobNorm ((s.kin.forward_kinematics
        [q 0, q 1, YumiFixedQ3.Q3, q 2, q 3, q 4, q 5]).1 - s.r) +
      norm3 ((s.kin.forward_kinematics
        [q 0, q 1, YumiFixedQ3.Q3, q 2, q 3, q 4, q 5]).2 - s.t))

/-- `YumiFixedQ3::setup`: entry 2 of the sampled configuration is
overwritten with `Q3`. -/
noncomputable def YumiFixedQ3.setup (s : SetupState) (rand : Vec7) :
    SetupState :=
  let q := Function.update rand 2 YumiFixedQ3.Q3
  { s with
    r := (s.kin.forward_kinematics [q 0, q 1, q 2, q 3, q 4, q 5, q 6]).1,
    t := (s.kin.forward_kinematics [q 0, q 1, q 2, q 3, q 4, q 5, q 6]).2 }

/-- `Ur5::new`. -/
noncomputable def Ur5.new : SetupState := ⟨Ur5.get_kin, 0, 0, [], []⟩

/-- `Ur5::error`. -/
noncomputable def Ur5.error (s : SetupState) : Option ℝ :=
  reduceMin (s.q.map fun q => calculate_ik_error s.kin s.r s.t q)

/-- `ThreeParallelBot::new`. -/
noncomputable def ThreeParallelBot.new : SetupState :=
  ⟨ThreeParallelBot.get_kin, 0, 0, [], []⟩

/-- `ThreeParallelBot::error`. -/
noncomputable def ThreeParallelBot.error (s : SetupState) : Option ℝ :=
  reduceMin (s.q.map fun q => calculate_ik_error s.kin s.r s.t q)

/-- `TwoParallelBot::new`. -/
noncomputable def TwoParallelBot.new : SetupState :=
  ⟨TwoParallelBot.get_kin, 0, 0, [], []⟩

/-- `TwoParallelBot::error`. -/
noncomputable def TwoParallelBot.error (s : SetupState) : Option ℝ :=
  reduceMin (s.q.map fun q => calculate_ik_error s.kin s.r s.t q)

/-- `SphericalBot::new`. -/
noncomputable def SphericalBot.new : SetupState :=
  ⟨SphericalBot.get_kin, 0, 0, [], []⟩

/-- `SphericalBot::error`. -/
noncomputable def SphericalBot.error (s : SetupState) : Option ℝ :=
  reduceMin (s.q.map fun q => calculate_ik_error s.kin s.r s.t q)

end IkGeo

namespace IkGeo

/-- C5: for every robot setup whose candidate list is empty — in particular
right after construction by `new`, before any run — `error()` returns the
explicit "no solution" sentinel (the `NAN` of `unwrap_or(NAN)`, modelled as
`none`) instead of crashing or comparing through a `NaN` minimum. -/
theorem empty_candidates_sentinel :
    (∀ s : SetupState, s.q = [] → Irb6640.error s = none) ∧
    (∀ s : SetupState, s.q = [] → KukaR800FixedQ3.error s = none) ∧
    (∀ s : SetupState, s.q = [] → RrcFixedQ6.error s = none) ∧
    (∀ s : SetupState, s.q = [] → YumiFixedQ3.error s = none) ∧
    (∀ s : SetupState, s.q = [] → Ur5.error s = none) ∧
    (∀ s : SetupState, s.q = [] → ThreeParallelBot.error s = none) ∧
    (∀ s : SetupState, s.q = [] → TwoParallelBot.error s = none) ∧
    (∀ s : SetupState, s.q = [] → SphericalBot.error s = none) ∧
    Irb6640.error Irb6640.new = none ∧
    KukaR800FixedQ3.error KukaR800FixedQ3.new = none ∧
    RrcFixedQ6.error RrcFixedQ6.new = none ∧
    YumiFixedQ3.error YumiFixedQ3.new = none ∧
    Ur5.error Ur5.new = none ∧
    ThreeParallelBot.error ThreeParallelBot.new = none ∧
    TwoParallelBot.error TwoParallelBot.new = none ∧
    SphericalBot.error SphericalBot.new = none := by
  refine ⟨fun s h => ?_, fun s h => ?_, fun s h => ?_, fun s h => ?_,
    fun s h => ?_, fun s h => ?_, fun s h => ?_, fun s h => ?_,
    ?_, ?_, ?_, ?_, ?_, ?_, ?_, ?_⟩ <;>
  simp [Irb6640.error, KukaR800FixedQ3.error, RrcFixedQ6.error,
    YumiFixedQ3.error, Ur5.error, ThreeParallelBot.error, TwoParallelBot.error,
    SphericalBot.error, Irb6640.new, KukaR800FixedQ3.new, RrcFixedQ6.new,
    YumiFixedQ3.new, Ur5.new, ThreeParallelBot.new, TwoParallelBot.new,
    SphericalBot.new, reduceMin, *]

/-- Witness for C5 at a concrete state: a freshly constructed IRB 6640 setup
has an empty candidate list and its error is the sentinel. -/
theorem empty_candidates_sentinel_witness : Irb6640.error Irb6640.new = none :=
  empty_candidates_sentinel.1 Irb6640.new rfl

/-- C8: every robot variant with a mechanically fixed joint evaluates its
target pose from a configuration whose fixed entry is the constant `pi/6` —
entry 2 for the KUKA and Yumi variants, entry 5 for the RRC variant — no
matter what the random source produced for any entry. -/
theorem fixed_joint_setup :
    (∀ (s : SetupState) (rand : Vec7),
      KukaR800FixedQ3.setup s rand =
        { s with
          r := (s.kin.forward_kinematics [rand 0, rand 1, KukaR800FixedQ3.Q3,
            rand 3, rand 4, rand 5, rand 6]).1,
          t := (s.kin.forward_kinematics [rand 0, rand 1, KukaR800FixedQ3.Q3,
            rand 3, rand 4, rand 5, rand 6]).2 }) ∧
    (∀ (s : SetupState) (rand : Vec7),
      RrcFixedQ6.setup s rand =
        { s with
          r := (s.kin.forward_kinematics [rand 0, rand 1, rand 2, rand 3,
            rand 4, RrcFixedQ6.Q6, rand 6]).1,
          t := (s.kin.forward_kinematics [rand 0, rand 1, rand 2, rand 3,
            rand 4, RrcFixedQ6.Q6, rand 6]).2 }) ∧
    (∀ (s : SetupState) (rand : Vec7),
      YumiFixedQ3.setup s rand =
        { s with
          r := (s.kin.forward_kinematics [rand 0, rand 1, YumiFixedQ3.Q3,
            rand 3, rand 4, rand 5, rand 6]).1,
          t := (s.kin.forward_kinematics [rand 0, rand 1, YumiFixedQ3.Q3,
            rand 3, rand 4, rand 5, rand 6]).2 }) := by
  refine ⟨fun s rand => ?_, fun s rand => ?_, fun s rand => ?_⟩ <;>
  simp [KukaR800FixedQ3.setup, RrcFixedQ6.setup, YumiFixedQ3.setup,
    Function.update]

/-- C10: `setup_from_str` writes only the target pose: the kinematic model
and the candidate-solution state (hence both counters) are unchanged
whenever the call succeeds (and on failure the source panics, leaving no
state at all). -/
theorem setup_from_str_frame (s : SetupState) (raw : String) (s2 : SetupState)
    (h : setup_from_str s raw = some s2) :
    s2.kin = s.kin ∧ s2.q = s.q ∧ s2.is_ls = s.is_ls ∧
      solution_count s2 = solution_count s ∧ ls_count s2 = ls_count s := by
  unfold setup_from_str at h
  cases hh : hardcoded_setup_from_string raw with
  | none =>
    rw [hh] at h
    exact absurd h (by simp)
  | some rt =>
    obtain ⟨r0, t0⟩ := rt
    rw [hh] at h
    have h2 := Option.some.inj h
    rw [← h2]
    simp [solution_count, ls_count]

/-- Witness for C10 at a concrete state and input: parsing an identity pose
into a fresh IRB 6640 setup leaves the (empty) candidate list unchanged. -/
theorem setup_from_str_frame_witness :
    (setup_from_str Irb6640.new "1,0,0,0,1,0,0,0,1,0,0,0").map SetupState.q =
      some [] := by
  have hsome : (setup_from_str Irb6640.new
      "1,0,0,0,1,0,0,0,1,0,0,0").isSome = true := rfl
  obtain ⟨s2, hs2⟩ := Option.isSome_iff_exists.mp hsome
  rw [hs2]
  have hfr := setup_from_str_frame Irb6640.new _ s2 hs2
  rw [Option.map_some']
  rw [hfr.2.1]
  rfl

end IkGeo

namespace IkGeo

theorem foldl_min_le (xs : List ℝ) (x : ℝ) :
    xs.foldl min x ≤ x ∧ ∀ y ∈ xs, xs.foldl min x ≤ y := by
  induction xs generalizing x with
  | nil => simp
  | cons a l ih =>
    simp only [List.foldl_cons]
    refine ⟨le_trans (ih (min x a)).1 (min_le_left x a), ?_⟩
    intro y hy
    rcases List.mem_cons.mp hy with h | h
    · subst h
      exact le_trans (ih (min x y)).1 (min_le_right x y)
    · exact (ih (min x a)).2 y h

theorem foldl_min_mem (xs : List ℝ) (x : ℝ) :
    xs.foldl min x = x ∨ xs.foldl min x ∈ xs := by
  induction xs generalizing x with
  | nil => left; rfl
  | cons a l ih =>
    simp only [List.foldl_cons]
    rcases ih (min x a) with h | h
    · rcases le_total x a with hxa | hax
      · left
        rw [h, min_eq_left hxa]
      · right
        rw [h, min_eq_right hax]
        exact List.mem_cons_self a l
    · right
      exact List.mem_cons_of_mem a h

/-- `reduceMin` over a mapped non-empty list returns an attained lower
bound: the minimum of the mapped values. -/
theorem reduceMin_map_spec {α : Type} (f : α → ℝ) (l : List α) (hl : l ≠ []) :
    ∃ m, reduceMin (l.map f) = some m ∧ (∀ x ∈ l, m ≤ f x) ∧
      ∃ x ∈ l, m = f x := by
  cases l with
  | nil => exact absurd rfl hl
  | cons a t =>
    refine ⟨(t.map f).foldl min (f a), rfl, ?_, ?_⟩
    · intro x hx
      rcases List.mem_cons.mp hx with h | h
      · subst h
        exact (foldl_min_le _ _).1
      · exact (foldl_min_le _ _).2 (f x) (List.mem_map_of_mem f h)
    · rcases foldl_min_mem (t.map f) (f a) with h | h
      · exact ⟨a, List.mem_cons_self a t, h⟩
      · obtain ⟨x, hx, hfx⟩ := List.mem_map.mp h
        exact ⟨x, List.mem_cons_of_mem a hx, hfx.symm⟩

end IkGeo

namespace IkGeo

/-- C7: for every robot setup with a non-empty candidate list, `error()` is
the minimum over candidates of the Frobenius norm of the rotation difference
plus the Euclidean norm of the translation difference between the forward
kinematics of the candidate's full-DOF joint vector — the fixed-joint
constant `pi/6` reinserted at index 2 for the KUKA and Yumi variants and at
index 5 for the RRC variant, no reinsertion for the 6-DOF robots — and the
stored target pose. -/
theorem candidate_error_minimum :
    (∀ s : SetupState, s.q ≠ [] →
      ∃ m, Irb6640.error s = some m ∧
        (∀ q ∈ s.q, m ≤ frobNorm ((s.kin.forward_kinematics
          [q 0, q 1, q 2, q 3, q 4, q 5]).1 - s.r) +
        norm3 ((s.kin.forward_kinematics
          [q 0, q 1, q 2, q 3, q 4, q 5]).2 - s.t)) ∧
        (∃ q ∈ s.q, m = frobNorm ((s.kin.forward_kinematics
          [q 0, q 1, q 2, q 3, q 4, q 5]).1 - s.r) +
        norm3 ((s.kin.forward_kinematics
          [q 0, q 1, q 2, q 3, q 4, q 5]).2 - s.t))) ∧
    (∀ s : SetupState, s.q ≠ [] →
      ∃ m, KukaR800FixedQ3.error s = some m ∧
        (∀ q ∈ s.q, m ≤ frobNorm ((s.kin.forward_kinematics
          [q 0, q 1, KukaR800FixedQ3.Q3, q 2, q 3, q 4, q 5]).1 - s.r) +
        norm3 ((s.kin.forward_kinematics
          [q 0, q 1, KukaR800FixedQ3.Q3, q 2, q 3, q 4, q 5]).2 - s.t)) ∧
        (∃ q ∈ s.q, m = frobNorm ((s.kin.forward_kinematics
          [q 0, q 1, KukaR800FixedQ3.Q3, q 2, q 3, q 4, q 5]).1 - s.r) +
        norm3 ((s.kin.forward_kinematics
          [q 0, q 1, KukaR800FixedQ3.Q3, q 2, q 3, q 4, q 5]).2 - s.t))) ∧
    (∀ s : SetupState, s.q ≠ [] →
      ∃ m, RrcFixedQ6.error s = some m ∧
        (∀ q ∈ s.q, m ≤ frobNorm ((s.kin.forward_kinematics
          [q 0, q 1, q 2, q 3, q 4, RrcFixedQ6.Q6, q 5]).1 - s.r) +
        norm3 ((s.kin.forward_kinematics
          [q 0, q 1, q 2, q 3, q 4, RrcFixedQ6.Q6, q 5]).2 - s.t)) ∧
        (∃ q ∈ s.q, m = frobNorm ((s.kin.forward_kinematics
          [q 0, q 1, q 2, q 3, q 4, RrcFixedQ6.Q6, q 5]).1 - s.r) +
        norm3 ((s.kin.forward_kinematics
          [q 0, q 1, q 2, q 3, q 4, RrcFixedQ6.Q6, q 5]).2 - s.t))) ∧
    (∀ s : SetupState, s.q ≠ [] →
      ∃ m, YumiFixedQ3.error s = some m ∧
        (∀ q ∈ s.q, m ≤ frobNorm ((s.kin.forward_kinematics
          [q 0, q 1, YumiFixedQ3.Q3, q 2, q 3, q 4, q 5]).1 - s.r) +
        norm3 ((s.kin.forward_kinematics
          [q 0, q 1, YumiFixedQ3.Q3, q 2, q 3, q 4, q 5]).2 - s.t)) ∧
        (∃ q ∈ s.q, m = frobNorm ((s.kin.forward_kinematics
          [q 0, q 1, YumiFixedQ3.Q3, q 2, q 3, q 4, q 5]).1 - s.r) +
        norm3 ((s.kin.forward_kinematics
          [q 0, q 1, YumiFixedQ3.Q3, q 2, q 3, q 4, q 5]).2 - s.t))) ∧
    (∀ s : SetupState, s.q ≠ [] →
      ∃ m, Ur5.error s = some m ∧
        (∀ q ∈ s.q, m ≤ frobNorm ((s.kin.forward_kinematics
          [q 0, q 1, q 2, q 3, q 4, q 5]).1 - s.r) +
        norm3 ((s.kin.forward_kinematics
          [q 0, q 1, q 2, q 3, q 4, q 5]).2 - s.t)) ∧
        (∃ q ∈ s.q, m = frobNorm ((s.kin.forward_kinematics
          [q 0, q 1, q 2, q 3, q 4, q 5]).1 - s.r) +
        norm3 ((s.kin.forward_kinematics
          [q 0, q 1, q 2, q 3, q 4, q 5]).2 - s.t))) ∧
    (∀ s : SetupState, s.q ≠ [] →
      ∃ m, ThreeParallelBot.error s = some m ∧
        (∀ q ∈ s.q, m ≤ frobNorm ((s.kin.forward_kinematics
          [q 0, q 1, q 2, q 3, q 4, q 5]).1 - s.r) +
        norm3 ((s.kin.forward_kinematics
          [q 0, q 1, q 2, q 3, q 4, q 5]).2 - s.t)) ∧
        (∃ q ∈ s.q, m = frobNorm ((s.kin.forward_kinematics
          [q 0, q 1, q 2, q 3, q 4, q 5]).1 - s.r) +
        norm3 ((s.kin.forward_kinematics
          [q 0, q 1, q 2, q 3, q 4, q 5]).2 - s.t))) ∧
    (∀ s : SetupState, s.q ≠ [] →
      ∃ m, TwoParallelBot.error s = some m ∧
        (∀ q ∈ s.q, m ≤ frobNorm ((s.kin.forward_kinematics
          [q 0, q 1, q 2, q 3, q 4, q 5]).1 - s.r) +
        norm3 ((s.kin.forward_kinematics
          [q 0, q 1, q 2, q 3, q 4, q 5]).2 - s.t)) ∧
        (∃ q ∈ s.q, m = frobNorm ((s.kin.forward_kinematics
          [q 0, q 1, q 2, q 3, q 4, q 5]).1 - s.r) +
        norm3 ((s.kin.forward_kinematics
          [q 0, q 1, q 2, q 3, q 4, q 5]).2 - s.t))) ∧
    (∀ s : SetupState, s.q ≠ [] →
      ∃ m, SphericalBot.error s = some m ∧
        (∀ q ∈ s.q, m ≤ frobNorm ((s.kin.forward_kinematics
          [q 0, q 1, q 2, q 3, q 4, q 5]).1 - s.r) +
        norm3 ((s.kin.forward_kinematics
          [q 0, q 1, q 2, q 3, q 4, q 5]).2 - s.t)) ∧
        (∃ q ∈ s.q, m = frobNorm ((s.kin.forward_kinematics
          [q 0, q 1, q 2, q 3, q 4, q 5]).1 - s.r) +
        norm3 ((s.kin.forward_kinematics
          [q 0, q 1, q 2, q 3, q 4, q 5]).2 - s.t))) := by
  refine ⟨fun s hs => ?_, fun s hs => ?_, fun s hs => ?_, fun s hs => ?_,
    fun s hs => ?_, fun s hs => ?_, fun s hs => ?_, fun s hs => ?_⟩ <;>
  exact reduceMin_map_spec _ s.q hs

/-- A concrete setup state with one zero candidate, for the C7 witness. -/
noncomputable def oneCandidateState : SetupState :=
  ⟨Irb6640.get_kin, 0, 0, [fun _ => 0], []⟩

/-- Witness for C7 at a concrete state: the IRB 6640 error of a
single-candidate list is its attained minimum. -/
theorem candidate_error_minimum_witness :
    ∃ m, Irb6640.error oneCandidateState = some m ∧
      (∀ q ∈ oneCandidateState.q, m ≤ frobNorm ((oneCandidateState.kin.forward_kinematics
          [q 0, q 1, q 2, q 3, q 4, q 5]).1 - oneCandidateState.r) +
        norm3 ((oneCandidateState.kin.forward_kinematics
          [q 0, q 1, q 2, q 3, q 4, q 5]).2 - oneCandidateState.t)) ∧
      (∃ q ∈ oneCandidateState.q, m = frobNorm ((oneCandidateState.kin.forward_kinematics
          [q 0, q 1, q 2, q 3, q 4, q 5]).1 - oneCandidateState.r) +
        norm3 ((oneCandidateState.kin.forward_kinematics
          [q 0, q 1, q 2, q 3, q 4, q 5]).2 - oneCandidateState.t)) :=
  candidate_error_minimum.1 oneCandidateState (by simp [oneCandidateState])

end IkGeo

namespace IkGeo

theorem mapOption_isSome {α β : Type} (f : α → Option β) (l : List α) :
    (mapOption f l).isSome = true ↔ ∀ a ∈ l, (f a).isSome = true := by
  induction l with
  | nil => simp [mapOption]
  | cons a t ih =>
    rw [List.forall_mem_cons]
    cases hfa : f a <;> cases hml : mapOption f t <;>
      simp only [mapOption, hfa, hml] <;> simp_all

theorem mapOption_some_getD {α β : Type} (f : α → Option β) :
    ∀ (l : List α) (data : List β), mapOption f l = some data →
      data.length = l.length ∧
        ∀ (n : ℕ) (da : α) (db : β), n < l.length →
          data.getD n db = (f (l.getD n da)).getD db := by
  intro l
  induction l with
  | nil =>
    intro data h
    simp only [mapOption, Option.some.injEq] at h
    subst h
    exact ⟨rfl, fun n da db hn => absurd hn (by simp)⟩
  | cons a t ih =>
    intro data h
    cases hfa : f a with
    | none =>
      simp only [mapOption, hfa] at h
      exact absurd h (by simp)
    | some b =>
      cases hml : mapOption f t with
      | none =>
        simp only [mapOption, hfa, hml] at h
        exact absurd h (by simp)
      | some bs =>
        simp only [mapOption, hfa, hml, Option.some.injEq] at h
        subst h
        obtain ⟨h1, h2⟩ := ih bs hml
        refine ⟨by simp [h1], ?_⟩
        intro n da db hn
        cases n with
        | zero => simp [hfa]
        | succ k =>
          simp only [List.getD_cons_succ]
          exact h2 k da db (Nat.succ_lt_succ_iff.mp hn)

end IkGeo

namespace IkGeo

/-- C3: `hardcoded_setup_from_string` succeeds exactly when the
comma-separated token list has at least twelve entries and every token (the
trailing extras included) parses as a real number — otherwise the source
panics, surfacing the parse error rather than defaulting; on success the
first nine values populate the rotation matrix row-major and the next three
the translation, the values of any trailing extra tokens being ignored. -/
theorem parse_config_characterization (raw : String) :
    ((hardcoded_setup_from_string raw).isSome = true ↔
      (12 ≤ (splitComma raw.data).length ∧
        ∀ tok ∈ splitComma raw.data, (parseReal tok).isSome = true)) ∧
    (∀ r t, hardcoded_setup_from_string raw = some (r, t) →
      (∀ i j : Fin 3, r i j =
        (((parseReal ((splitComma raw.data).getD (3 * i.val + j.val)
          [])).getD 0 : ℚ) : ℝ)) ∧
      (∀ i : Fin 3, t i =
        (((parseReal ((splitComma raw.data).getD (9 + i.val)
          [])).getD 0 : ℚ) : ℝ))) := by
  constructor
  · unfold hardcoded_setup_from_string
    cases hml : mapOption parseReal (splitComma raw.data) with
    | none =>
      have hiff := mapOption_isSome parseReal (splitComma raw.data)
      rw [hml] at hiff
      simp only [Option.isSome_none, Bool.false_eq_true, false_iff] at hiff
      simp only [Option.isSome_none, Bool.false_eq_true, false_iff]
      intro hc
      exact hiff hc.2
    | some data =>
      dsimp only
      have hlen : data.length = (splitComma raw.data).length :=
        (mapOption_some_getD parseReal _ data hml).1
      have hall : ∀ tok ∈ splitComma raw.data, (parseReal tok).isSome = true :=
        (mapOption_isSome parseReal (splitComma raw.data)).mp (by rw [hml]; rfl)
      by_cases h12 : 12 ≤ data.length
      · rw [if_pos h12]
        simp only [Option.isSome_some, true_iff]
        exact ⟨hlen ▸ h12, hall⟩
      · rw [if_neg h12]
        simp only [Option.isSome_none, Bool.false_eq_true, false_iff]
        intro hc
        exact h12 (hlen ▸ hc.1)
  · intro r t h
    unfold hardcoded_setup_from_string at h
    cases hml : mapOption parseReal (splitComma raw.data) with
    | none =>
      rw [hml] at h
      exact absurd h (by simp)
    | some data =>
      rw [hml] at h
      dsimp only at h
      by_cases h12 : 12 ≤ data.length
      · rw [if_pos h12] at h
        obtain ⟨hL, hgetD⟩ := mapOption_some_getD parseReal _ data hml
        have hsplit : 12 ≤ (splitComma raw.data).length := hL ▸ h12
        injection h with h
        obtain ⟨hr, ht⟩ := Prod.mk.inj h
        have e : ∀ n : ℕ, n < 12 → data.getD n 0 =
            (parseReal ((splitComma raw.data).getD n [])).getD 0 :=
          fun n hn => hgetD n [] 0 (by omega)
        simp only [List.getD_eq_getElem?_getD] at e
        constructor
        · intro i j
          rw [← hr]
          fin_cases i <;> fin_cases j <;>
            simp [e 0 (by norm_num), e 1 (by norm_num), e 2 (by norm_num),
              e 3 (by norm_num), e 4 (by norm_num), e 5 (by norm_num),
              e 6 (by norm_num), e 7 (by norm_num), e 8 (by norm_num),
              Matrix.vecHead, Matrix.vecTail]
        · intro i
          rw [← ht]
          fin_cases i <;>
            simp [e 9 (by norm_num), e 10 (by norm_num), e 11 (by norm_num),
              Matrix.vecHead, Matrix.vecTail]
      · rw [if_neg h12] at h
        exact absurd h (by simp)

/-- Witness for C3 at a concrete input: thirteen parseable tokens are
accepted (the thirteenth being ignored). -/
theorem parse_config_characterization_witness :
    (hardcoded_setup_from_string "1,2,3,4,5,6,7,8,9,10,11,12,13").isSome =
      true :=
  (parse_config_characterization "1,2,3,4,5,6,7,8,9,10,11,12,13").1.mpr
    ⟨by decide, by decide⟩

end IkGeo
